import Mathlib

/-!
Verification development for the stampy text extractor
(`stampy-text-extractor.py`): a shallow embedding of the entry
normalizer, HTML stripper, URL extractor and search engine, with
theorems settling the specification claims.

Python strings are modelled as `List Char`; loosely typed JSON values
as `JVal`; Python exceptions as `PyErr` with `Except`-valued functions
for code that can raise.  Case folding and character classes are
modelled at the ASCII level (the inputs the program handles are ASCII
HTML exports).
-/

set_option linter.unusedVariables false

/-- Characters of a Python string, modelled as a list of `Char`. -/
abbrev Str := List Char

/-- Characters of a Lean string literal, as the `Str` model. -/
def lst (s : String) : Str := s.data

/-- Loosely typed JSON-like values as they appear in raw records. -/
inductive JVal where
  | str (s : Str)
  | int (n : Int)
  | list (xs : List JVal)
  | null

/-- A raw record: a string-keyed mapping, modelled as an association list
 (Python dict keys are unique, so first-match lookup is faithful). -/
abbrev RawRec := List (Str × JVal)

/-- Python `dict.get(key, default)`. -/
def getJ (r : RawRec) (k : Str) (d : JVal) : JVal :=
  match r with
  | [] => d
  | (k2, v) :: rest => if k2 = k then v else getJ rest k d

/-- The Python exception classes the program can raise or catch. -/
inductive PyErr where
  | valueError
  | typeError
  | attributeError
deriving DecidableEq

/-- Python truthiness of a JSON-like value. -/
def pyTruthy : JVal → Bool
  | .str s => !s.isEmpty
  | .int n => decide (n ≠ 0)
  | .list xs => !xs.isEmpty
  | .null => false

/-- Decimal representation of an integer, as Python `str` renders it. -/
def intRepr (n : Int) : Str :=
  if n < 0 then '-' :: Nat.toDigits 10 n.natAbs else Nat.toDigits 10 n.natAbs

mutual

/-- Python `repr` of a JSON-like value (string escape sequences inside
 reprs are not modelled; no theorem depends on them). -/
def pyRepr : JVal → Str
  | .str s => '\'' :: (s ++ ['\''])
  | .int n => intRepr n
  | .list xs => '[' :: (pyReprL xs ++ [']'])
  | .null => lst "None"

/-- Comma-separated `repr`s of the elements of a Python list. -/
def pyReprL : List JVal → Str
  | [] => []
  | [v] => pyRepr v
  | v :: rest => pyRepr v ++ (',' :: ' ' :: pyReprL rest)

end

/-- Python `str()` coercion, used by `extract_urls` on non-string input. -/
def pyStr : JVal → Str
  | .str s => s
  | v => pyRepr v

/-! ## URL extractor (`extract_urls`, lines 98-116)

The standard pattern is
`http[s]?://(?:[a-zA-Z]|[0-9]|[$-_@.&+]|[!*\\(\\),]|(?:%[0-9a-fA-F][0-9a-fA-F]))+`.
Note `[$-_@.&+]` contains the character RANGE from `$` (0x24) to `_`
(0x5F); `@ . & +` are members of that range, and so are `%` and all hex
digits, which makes the percent-encoded-pair alternative unreachable
(a lone `%` is consumed by the earlier range alternative).  The whole
alternation therefore matches exactly one character of the union class
per step. -/

/-- Character class of the standard-URL regex: ASCII letters, digits,
 the range `$`..`_`, and the literals of `[$-_@.&+]` and `[!*\\(\\),]`
 (in a raw-string char class `\\` is one literal backslash). -/
def isStdUrlChar (c : Char) : Bool :=
  c.isAlpha || c.isDigit
    || (decide ('$' ≤ c) && decide (c ≤ '_'))
    || decide (c = '@') || decide (c = '.') || decide (c = '&') || decide (c = '+')
    || decide (c = '!') || decide (c = '*') || decide (c = '\\')
    || decide (c = '(') || decide (c = ')') || decide (c = ',')

/-- Match a literal prefix of a string, returning the remainder. -/
def chop : Str → Str → Option Str
  | [], s => some s
  | _ :: _, [] => none
  | a :: p, b :: s => if a = b then chop p s else none

/-- After the scheme the regex requires the literal `://` followed by a
 maximal nonempty run of allowed characters. -/
def stdTail (q : Str) : Option (Str × Str) :=
  match chop (lst "://") q with
  | none => none
  | some q2 =>
    match q2.takeWhile isStdUrlChar with
    | [] => none
    | c :: run => some (c :: run, q2.dropWhile isStdUrlChar)

/-- Try the standard-URL pattern anchored at the start of `s`; on success
 return the matched text and the remainder after it.  The greedy `[s]?`
 first consumes an `s` and backtracks if the rest of the pattern fails. -/
def tryStdAt (s : Str) : Option (Str × Str) :=
  match chop (lst "http") s with
  | none => none
  | some s4 =>
    match chop (lst "s") s4 with
    | some s5 =>
      match stdTail s5 with
      | some (run, rest) => some (lst "https://" ++ run, rest)
      | none =>
        match stdTail s4 with
        | some (run, rest) => some (lst "http://" ++ run, rest)
        | none => none
    | none =>
      match stdTail s4 with
      | some (run, rest) => some (lst "http://" ++ run, rest)
      | none => none

/-- Left-to-right non-overlapping scan of `re.findall` for the standard
 pattern.  Fuel is one more than the number of unscanned characters. -/
def scanStd : Nat → Str → List Str
  | 0, _ => []
  | _ + 1, [] => []
  | fuel + 1, c :: rest =>
    match tryStdAt (c :: rest) with
    | some (m, after) => m :: scanStd fuel after
    | none => scanStd fuel rest

/-- Try the internal pseudo-link pattern
 `\/\?state=[A-Za-z0-9]{4}&amp;question=[^"]+` anchored at the start. -/
def tryStateAt (s : Str) : Option (Str × Str) :=
  match chop (lst "/?state=") s with
  | none => none
  | some s1 =>
    match s1 with
    | a :: b :: c :: d :: s2 =>
      if a.isAlphanum && b.isAlphanum && c.isAlphanum && d.isAlphanum then
        match chop (lst "&amp;question=") s2 with
        | none => none
        | some s3 =>
          match s3.takeWhile (fun ch => ch != '"') with
          | [] => none
          | r0 :: run =>
            some (lst "/?state=" ++ [a, b, c, d] ++ lst "&amp;question=" ++ (r0 :: run),
                  s3.dropWhile (fun ch => ch != '"'))
      else none
    | _ => none

/-- Left-to-right non-overlapping scan of `re.findall` for the internal
 pseudo-link pattern. -/
def scanState : Nat → Str → List Str
  | 0, _ => []
  | _ + 1, [] => []
  | fuel + 1, c :: rest =>
    match tryStateAt (c :: rest) with
    | some (m, after) => m :: scanState fuel after
    | none => scanState fuel rest

/-- `extract_urls` on an actual string: standard matches first, then
 internal pseudo-link matches, concatenated in scan order. -/
def extractUrlsS (s : Str) : List Str :=
  scanStd (s.length + 1) s ++ scanState (s.length + 1) s

/-- `extract_urls` (lines 98-116): `None` yields `[]`; non-string input
 is coerced with `str()` before scanning. -/
def extract_urls : JVal → List Str
  | .null => []
  | .str s => extractUrlsS s
  | v => extractUrlsS (pyStr v)

/-! ## Timestamp parsing (`parse_datetime`, lines 119-122)

`datetime.fromisoformat` of Python 3.10 (the interpreter named in the
script's shebang) accepts exactly `YYYY-MM-DD` optionally followed by
one separator character and `HH[:MM[:SS[.fff|.ffffff]]]` with an
optional `+HH:MM[:SS[.ffffff]]` or `-HH:MM[:SS[.ffffff]]` offset; field
ranges are validated by the datetime constructor.  (The leniency of
Python `int()` toward signs and spaces inside two-character fields is
not modelled.) -/

/-- A parsed timestamp value; `tzoff` is the UTC offset in microseconds
 when one was given. -/
structure DateTime where
  year : Nat
  month : Nat
  day : Nat
  hour : Nat
  minute : Nat
  second : Nat
  usec : Nat
  tzoff : Option Int
deriving DecidableEq

/-- The sentinel `datetime.min` = 0001-01-01 00:00:00. -/
def dtMin : DateTime := ⟨1, 1, 1, 0, 0, 0, 0, none⟩

/-- Value of a decimal digit character. -/
def decDig (c : Char) : Option Nat :=
  if c.isDigit then some (c.toNat - 48) else none

/-- Value of a two-decimal-digit field. -/
def dig2 (a b : Char) : Option Nat :=
  match decDig a, decDig b with
  | some x, some y => some (x * 10 + y)
  | _, _ => none

/-- Value of a nonempty all-decimal-digit string. -/
def natOfDigs (s : Str) : Option Nat :=
  match s with
  | [] => none
  | _ => go s 0
where
  go : Str → Nat → Option Nat
    | [], acc => some acc
    | c :: r, acc =>
      match decDig c with
      | some v => go r (acc * 10 + v)
      | none => none

/-- Parse `HH[:MM[:SS[.fff|.ffffff]]]` exactly as CPython's
 `_parse_hh_mm_ss_ff`, returning hour, minute, second, microsecond. -/
def parseHMSF (s : Str) : Option (Nat × Nat × Nat × Nat) :=
  match s with
  | a :: b :: rest =>
    match dig2 a b with
    | none => none
    | some h =>
      match rest with
      | [] => some (h, 0, 0, 0)
      | c :: rest2 =>
        if c = ':' then
          match rest2 with
          | m1 :: m2 :: rest3 =>
            match dig2 m1 m2 with
            | none => none
            | some mi =>
              match rest3 with
              | [] => some (h, mi, 0, 0)
              | c2 :: rest4 =>
                if c2 = ':' then
                  match rest4 with
                  | s1 :: s2 :: rest5 =>
                    match dig2 s1 s2 with
                    | none => none
                    | some se =>
                      match rest5 with
                      | [] => some (h, mi, se, 0)
                      | c3 :: frac =>
                        if c3 = '.' then
                          match natOfDigs frac with
                          | none => none
                          | some fv =>
                            if frac.length = 3 then some (h, mi, se, fv * 1000)
                            else if frac.length = 6 then some (h, mi, se, fv)
                            else none
                        else none
                  | _ => none
                else none
          | _ => none
        else none
  | _ => none

/-- Index of the first `+` or `-` in the time string, where the
 timezone component starts. -/
def tzSplit : Str → Option Nat
  | [] => none
  | c :: rest =>
    if c = '+' ∨ c = '-' then some 0
    else (tzSplit rest).map (· + 1)

/-- Parse the time-of-day part with its optional timezone offset; the
 offset (in microseconds) must be strictly inside a day. -/
def parseTimeTz (tstr : Str) : Option (Nat × Nat × Nat × Nat × Option Int) :=
  match tzSplit tstr with
  | none => (parseHMSF tstr).map (fun hmsf => (hmsf.1, hmsf.2.1, hmsf.2.2.1, hmsf.2.2.2, none))
  | some k =>
    let timestr := tstr.take k
    let tzstr := tstr.drop (k + 1)
    let neg : Bool := decide ((tstr.drop k).headD ' ' = '-')
    if tzstr.length = 5 ∨ tzstr.length = 8 ∨ tzstr.length = 15 then
      match parseHMSF timestr, parseHMSF tzstr with
      | some hmsf, some tzc =>
        let mag : Int :=
          ((tzc.1 * 3600 + tzc.2.1 * 60 + tzc.2.2.1) * 1000000 + tzc.2.2.2 : Nat)
        if mag < 86400000000 then
          some (hmsf.1, hmsf.2.1, hmsf.2.2.1, hmsf.2.2.2,
                some (if neg then -mag else mag))
        else none
      | _, _ => none
    else none

/-- Parse an exactly-ten-character `YYYY-MM-DD` date string (ranges are
 checked later, as the datetime constructor does). -/
def parseDate10 (s : Str) : Option (Nat × Nat × Nat) :=
  match s with
  | [y1, y2, y3, y4, h1, m1, m2, h2, d1, d2] =>
    if h1 = '-' ∧ h2 = '-' then
      match decDig y1, decDig y2, decDig y3, decDig y4,
            dig2 m1 m2, dig2 d1 d2 with
      | some a, some b, some c, some d, some mo, some da =>
        some (((a * 10 + b) * 10 + c) * 10 + d, mo, da)
      | _, _, _, _, _, _ => none
    else none
  | _ => none

/-- Gregorian leap year test. -/
def isLeap (y : Nat) : Bool :=
  (decide (y % 4 = 0) && decide (y % 100 ≠ 0)) || decide (y % 400 = 0)

/-- Number of days in a month. -/
def daysInMonth (y m : Nat) : Nat :=
  if m = 2 then (if isLeap y then 29 else 28)
  else if m = 4 ∨ m = 6 ∨ m = 9 ∨ m = 11 then 30
  else 31

/-- Range validation performed by the `datetime` constructor. -/
def mkValid (y mo d h mi se us : Nat) (tz : Option Int) : Option DateTime :=
  if 1 ≤ y ∧ y ≤ 9999 ∧ 1 ≤ mo ∧ mo ≤ 12 ∧ 1 ≤ d ∧ d ≤ daysInMonth y mo ∧
     h ≤ 23 ∧ mi ≤ 59 ∧ se ≤ 59 ∧ us ≤ 999999 then
    some ⟨y, mo, d, h, mi, se, us, tz⟩
  else none

/-- `datetime.fromisoformat` of Python 3.10: a ten-character date,
 optionally followed by one (unchecked) separator character and a
 nonempty time string. -/
def fromisoformat (s : Str) : Option DateTime :=
  match parseDate10 (s.take 10) with
  | none => none
  | some ymd =>
    if s.length = 10 then mkValid ymd.1 ymd.2.1 ymd.2.2 0 0 0 0 none
    else
      match parseTimeTz (s.drop 11) with
      | none => none
      | some t => mkValid ymd.1 ymd.2.1 ymd.2.2 t.1 t.2.1 t.2.2.1 t.2.2.2.1 t.2.2.2.2

/-- Python `str.rstrip('Z')`: remove ALL trailing `Z` characters. -/
def rstripZ (s : Str) : Str :=
  (s.reverse.dropWhile (fun c => decide (c = 'Z'))).reverse

/-- Modelled from the spec: "strip one trailing literal `Z` character
 (if present)" — the reading of `parse_datetime` asserted by the claim,
 kept for comparison with the code's `rstrip`. -/
def rstripOneZ (s : Str) : Str :=
  match s.reverse with
  | c :: r => if c = 'Z' then r.reverse else s
  | [] => s

/-- `parse_datetime` (lines 119-122) at its runtime argument: a falsy
 value yields `datetime.min`; a truthy string is parsed after
 `rstrip('Z')` (`ValueError` on failure); a truthy non-string raises
 `AttributeError` at `.rstrip`. -/
def parse_datetime (v : JVal) : Except PyErr DateTime :=
  if pyTruthy v then
    match v with
    | .str s =>
      match fromisoformat (rstripZ s) with
      | some d => .ok d
      | none => .error .valueError
    | _ => .error .attributeError
  else .ok dtMin

/-! ## HTML stripper (`strip_tags`, lines 17-21)

`BeautifulSoup(html_text, 'html.parser').get_text()` is modelled as a
best-effort tokenizer: a `<` that opens a markup construct (next
character a letter, `/`, `!` or `?`) is dropped together with
everything through the next `>`; if no `>` remains the `<` is emitted
as data (the parser's end-of-input recovery); any other `<` is data;
character references with a trailing semicolon are decoded (a
representative entity table plus numeric references; the HTML5 rules
for references without semicolons, comment/script content and quoted
`>` inside attributes are not modelled); all other text is kept in
order. -/

/-- Drop the remainder of a markup construct through the first `>`. -/
def dropTag : Str → Str
  | [] => []
  | c :: rest => if c = '>' then rest else dropTag rest

/-- Value of a hexadecimal digit character. -/
def hexDig (c : Char) : Option Nat :=
  if c.isDigit then some (c.toNat - 48)
  else if decide ('a' ≤ c) && decide (c ≤ 'f') then some (c.toNat - 87)
  else if decide ('A' ≤ c) && decide (c ≤ 'F') then some (c.toNat - 55)
  else none

/-- Accumulate digit values in a base. -/
def digsVal (base : Nat) (f : Char → Option Nat) : Str → Nat → Option Nat
  | [], acc => some acc
  | c :: r, acc =>
    match f c with
    | some v => digsVal base f r (acc * base + v)
    | none => none

/-- Character for a numeric reference body (after `#`); invalid code
 points fall back to `Char.ofNat`'s default. -/
def numRef (ds : Str) : Option Char :=
  match ds with
  | [] => none
  | c :: rest =>
    if c = 'x' ∨ c = 'X' then
      match rest with
      | [] => none
      | _ => (digsVal 16 hexDig rest 0).map Char.ofNat
    else (digsVal 10 decDig ds 0).map Char.ofNat

/-- Decoded character of a named or numeric reference body. -/
def entChar (nm : Str) : Option Char :=
  if nm = lst "amp" then some '&'
  else if nm = lst "lt" then some '<'
  else if nm = lst "gt" then some '>'
  else if nm = lst "quot" then some '"'
  else if nm = lst "apos" then some '\''
  else if nm = lst "nbsp" then some '\xa0'
  else
    match nm with
    | c :: ds => if c = '#' then numRef ds else none
    | [] => none

/-- Characters that may form a reference body. -/
def entNameChar (c : Char) : Bool :=
  c.isAlphanum || decide (c = '#')

/-- Decode one character reference right after a `&`, returning the
 decoded character and the remainder after the `;`. -/
def decodeEnt (s : Str) : Option (Char × Str) :=
  match s.takeWhile entNameChar with
  | [] => none
  | nm =>
    match s.dropWhile entNameChar with
    | c :: rest => if c = ';' then (entChar nm).map (fun ch => (ch, rest)) else none
    | [] => none

/-- Tokenizer core of `get_text`; fuel is one more than the input
 length (every step consumes at least one character). -/
def stripGoF : Nat → Str → Str
  | 0, _ => []
  | _ + 1, [] => []
  | fuel + 1, c :: rest =>
    if c = '<' then
      match rest with
      | [] => ['<']
      | d :: _ =>
        if d.isAlpha || decide (d = '/') || decide (d = '!') || decide (d = '?') then
          if rest.any (fun x => decide (x = '>')) then stripGoF fuel (dropTag rest)
          else '<' :: stripGoF fuel rest
        else '<' :: stripGoF fuel rest
    else if c = '&' then
      match decodeEnt rest with
      | some (ch, r) => ch :: stripGoF fuel r
      | none => '&' :: stripGoF fuel rest
    else c :: stripGoF fuel rest

/-- `strip_tags` (lines 17-21) on `None` or a string. -/
def stripTags : Option Str → Str
  | none => []
  | some s => stripGoF (s.length + 1) s

/-- `strip_tags` at its runtime argument: `BeautifulSoup` raises
 `TypeError` when the markup is neither a string nor `None`. -/
def stripTagsJ : JVal → Except PyErr Str
  | .null => .ok []
  | .str s => .ok (stripTags (some s))
  | _ => .error .typeError

/-! ## Entry normalization (`parse_json_data`, lines 61-95)

The `Entry` dataclass stores whatever values the record supplies;
fields that are only passed through keep the loose `JVal` type.  The
`try` body covers entry construction and the status test; only
`ValueError` is caught. -/

/-- The `Entry` dataclass (lines 24-39), fields in source order. -/
structure Entry where
  title : JVal
  pageid : JVal
  text : Str
  answerEditLink : JVal
  tags : JVal
  banners : JVal
  relatedQuestions : JVal
  status : JVal
  alternatePhrasings : JVal
  subtitle : JVal
  parents : JVal
  updatedAt : DateTime
  order : JVal
  URLs : List Str

/-- One iteration of the `parse_json_data` loop up to the membership
 test: `extract_urls` runs first, then the constructor arguments in
 order, of which `strip_tags(rawtext)` precedes `parse_datetime`. -/
def parseOne (item : RawRec) : Except PyErr Entry :=
  let rawtext := getJ item (lst "text") (JVal.str [])
  let urls := extract_urls rawtext
  match stripTagsJ rawtext with
  | .error e => .error e
  | .ok text =>
    match parse_datetime (getJ item (lst "updatedAt") (JVal.str [])) with
    | .error e => .error e
    | .ok upd =>
      .ok ⟨getJ item (lst "title") (JVal.str []),
           getJ item (lst "pageid") (JVal.str []),
           text,
           getJ item (lst "answerEditLink") (JVal.str []),
           getJ item (lst "tags") (JVal.list []),
           getJ item (lst "banners") (JVal.list []),
           getJ item (lst "relatedQuestions") (JVal.list []),
           getJ item (lst "status") (JVal.str []),
           getJ item (lst "alternatePhrasings") (JVal.str []),
           getJ item (lst "subtitle") (JVal.str []),
           getJ item (lst "parents") (JVal.list []),
           upd,
           getJ item (lst "order") (JVal.int 0),
           urls⟩

/-- Membership of a status string in `excluded_statuses` (line 66). -/
def inExcluded (s : Str) : Bool :=
  if s = lst "Marked for deletion" then true
  else if s = lst "Subsection" then true
  else if s = lst "Duplicate" then true
  else false

/-- The Python test `entry.status not in excluded_statuses` evaluated on
 a loose value: a list is unhashable and raises `TypeError`; any other
 non-string is simply not a member. -/
def statusCheck : JVal → Except PyErr Bool
  | .list _ => .error .typeError
  | .str s => .ok (inExcluded s)
  | _ => .ok false

/-- `parse_json_data` (lines 61-95): records are processed in order;
 a `ValueError` skips the record (after printing a diagnostic) and
 processing continues; any other exception propagates and the whole
 call raises. -/
def parse_json_data : List RawRec → Except PyErr (List Entry)
  | [] => .ok []
  | item :: rest =>
    match parseOne item with
    | .error .valueError => parse_json_data rest
    | .error e => .error e
    | .ok entry =>
      match statusCheck entry.status with
      | .error e => .error e
      | .ok excl =>
        match parse_json_data rest with
        | .error e => .error e
        | .ok es => .ok (if excl then es else entry :: es)

/-! ## Search engine (`search_entries`, lines 156-190)

The pattern is `re.escape(search_term)`, optionally wrapped in `\b`
word boundaries, so its matching semantics is literal-substring
matching (case-folded under `re.IGNORECASE`, modelled at the ASCII
level) with optional boundary checks.  `re.search` returns the
leftmost match; `re.finditer` returns non-overlapping matches left to
right, advancing one position after a zero-width match. -/

/-- Python `str.split('\n')`: every newline splits, empty pieces kept. -/
def splitNl : Str → List Str
  | [] => [[]]
  | c :: rest =>
    match splitNl rest with
    | [] => [[c]]
    | l :: ls => if c = '\n' then [] :: l :: ls else (c :: l) :: ls

/-- Python whitespace for `str.strip()`. -/
def pyIsSpace (c : Char) : Bool :=
  decide (c = ' ' ∨ c = '\t' ∨ c = '\n' ∨ c = '\r' ∨ c = '\x0b' ∨ c = '\x0c')

/-- Python `str.strip()`. -/
def pyStrip (s : Str) : Str :=
  ((s.dropWhile pyIsSpace).reverse.dropWhile pyIsSpace).reverse

/-- Word characters for `\b` (ASCII view of `\w`). -/
def isWordChar (c : Char) : Bool :=
  c.isAlphanum || decide (c = '_')

/-- Character comparison, case-folded when `ic` (IGNORECASE) is set. -/
def eqC (ic : Bool) (a b : Char) : Bool :=
  if ic then decide (a.toLower = b.toLower) else decide (a = b)

/-- The literal pattern `t` matches at the head of `s`. -/
def litAt : Bool → Str → Str → Bool
  | _, [], _ => true
  | _, _ :: _, [] => false
  | ic, a :: t, b :: s => eqC ic a b && litAt ic t s

/-- Whether position `i` of `s` holds a word character. -/
def wordAt (s : Str) (i : Nat) : Bool :=
  match s.drop i with
  | c :: _ => isWordChar c
  | [] => false

/-- The `\b` word-boundary test at position `i`. -/
def boundB (s : Str) (i : Nat) : Bool :=
  match i with
  | 0 => wordAt s 0
  | j + 1 => wordAt s j != wordAt s (j + 1)

/-- The whole escaped pattern matches at position `i` of `s`. -/
def matchesAt (ic ww : Bool) (t s : Str) (i : Nat) : Bool :=
  litAt ic t (s.drop i) && (!ww || (boundB s i && boundB s (i + t.length)))

/-- Scan for the leftmost match from position `i` with the given fuel. -/
def searchGo (ic ww : Bool) (t s : Str) : Nat → Nat → Option (Nat × Str)
  | 0, _ => none
  | fuel + 1, i =>
    if matchesAt ic ww t s i then some (i, (s.drop i).take t.length)
    else searchGo ic ww t s fuel (i + 1)

/-- `re.search` of the escaped pattern: leftmost match position and the
 matched text (`match.group()`, taken from the subject string). -/
def reSearch (ic ww : Bool) (t s : Str) : Option (Nat × Str) :=
  searchGo ic ww t s (s.length + 1) 0

/-- Scan for all non-overlapping matches from position `i`. -/
def findGo (ic ww : Bool) (t s : Str) : Nat → Nat → List (Nat × Str)
  | 0, _ => []
  | fuel + 1, i =>
    if s.length < i then []
    else if matchesAt ic ww t s i then
      (i, (s.drop i).take t.length) :: findGo ic ww t s fuel (i + max t.length 1)
    else findGo ic ww t s fuel (i + 1)

/-- `re.finditer` of the escaped pattern over a line. -/
def findIterL (ic ww : Bool) (t s : Str) : List (Nat × Str) :=
  findGo ic ww t s (s.length + 1) 0

/-- One element of a `result['matches']` list: `('title', start, group)`,
 `('text', group, stripped line)` or `('url', group, url)`. -/
inductive MatchRec where
  | title (pos : Nat) (grp : Str)
  | text (grp : Str) (line : Str)
  | url (grp : Str) (u : Str)
deriving DecidableEq

/-- One search result dict: `{'title': ..., 'status': ..., 'matches': ...}`. -/
structure MatchResult where
  title : Str
  status : JVal
  matches' : List MatchRec

/-- The `('text', ...)` records of one line, in scan order. -/
def lineRecs (ic ww : Bool) (term line : Str) : List MatchRec :=
  (findIterL ic ww term line).map (fun pg => MatchRec.text pg.2 (pyStrip line))

/-- The per-entry body of the `search_entries` loop given the title
 string `t`: the gate is `title_match or text_match or any(url_matches)`
 and the record order is title, then per-line text, then urls. -/
def oneRes (term : Str) (cs ww : Bool) (t : Str) (e : Entry) : Option MatchResult :=
  let ic := !cs
  let titleM := reSearch ic ww term t
  let textM := reSearch ic ww term e.text
  let urlMs := e.URLs.map (fun u => reSearch ic ww term u)
  if titleM.isSome || textM.isSome || urlMs.any (fun o => o.isSome) then
    some ⟨t, e.status,
      (match titleM with
       | some ig => [MatchRec.title ig.1 ig.2]
       | none => [])
      ++ (splitNl e.text).flatMap (fun line => lineRecs ic ww term line)
      ++ (e.URLs.zip urlMs).filterMap (fun um =>
            match um.2 with
            | some ig => some (MatchRec.url ig.2 um.1)
            | none => none)⟩
  else none

/-- One iteration of the `search_entries` loop: `re.search` on a
 non-string title raises `TypeError`. -/
def search_one (term : Str) (cs ww : Bool) (e : Entry) : Except PyErr (Option MatchResult) :=
  match e.title with
  | .str t => .ok (oneRes term cs ww t e)
  | _ => .error .typeError

/-- Total per-entry result used to state characterizations (coincides
 with `search_one` whenever the title is a string). -/
def resOf (term : Str) (cs ww : Bool) (e : Entry) : Option MatchResult :=
  match e.title with
  | .str t => oneRes term cs ww t e
  | _ => none

/-- `search_entries` (lines 156-190): entries in order, hits appended. -/
def search_entries (es : List Entry) (term : Str) (cs ww : Bool) :
    Except PyErr (List MatchResult) :=
  match es with
  | [] => .ok []
  | e :: rest =>
    match search_one term cs ww e with
    | .error err => .error err
    | .ok r =>
      match search_entries rest term cs ww with
      | .error err => .error err
      | .ok rs => .ok (r.toList ++ rs)

/-! ## Concrete values used by witnesses and counterexamples -/

/-- Entry with the given title, body text, urls and status, all other
 fields at their record defaults. -/
def mkE (title : JVal) (text : Str) (urls : List Str) (status : JVal) : Entry :=
  ⟨title, .str [], text, .str [], .list [], .list [], .list [], status,
   .str [], .str [], .list [], dtMin, .int 0, urls⟩

/-- The entry produced by normalizing an empty raw record. -/
def entryDefault : Entry :=
  ⟨.str [], .str [], [], .str [], .list [], .list [], .list [], .str [],
   .str [], .str [], .list [], dtMin, .int 0, []⟩

/-- Whether a string contains a `<`/`>`-delimited markup-shaped tag:
 a `<` immediately followed by an ASCII letter with a later `>`. -/
def tagIn : Str → Bool
  | [] => false
  | c :: rest =>
    (decide (c = '<') &&
      (match rest with
       | d :: more => d.isAlpha && more.any (fun x => decide (x = '>'))
       | [] => false))
    || tagIn rest


/-- The per-record keep function realized by `parse_json_data`: the
 entry when the record parses and its status membership test is a
 clean false. -/
def keepOf (r : RawRec) : Option Entry :=
  match parseOne r with
  | .ok e =>
    match statusCheck e.status with
    | .ok true => none
    | .ok false => some e
    | .error _ => none
  | .error _ => none

/-! ## Theorems: URL extractor (claims C1 and C6) -/

theorem stdTail_shape {q run rest : Str} (h : stdTail q = some (run, rest)) :
    run ≠ [] ∧ ∀ c ∈ run, isStdUrlChar c = true := by
  unfold stdTail at h
  split at h <;> try exact Option.noConfusion h
  next q2 hc =>
    split at h <;> try exact Option.noConfusion h
    next c run2 htw =>
      simp only [Option.some.injEq, Prod.mk.injEq] at h
      obtain ⟨h1, h2⟩ := h
      subst h1
      refine ⟨by simp, fun x hx => ?_⟩
      have hmem : x ∈ q2.takeWhile isStdUrlChar := by rw [htw]; exact hx
      exact List.mem_takeWhile_imp hmem

theorem tryStdAt_shape {s m rest : Str} (h : tryStdAt s = some (m, rest)) :
    ∃ run, (m = lst "http://" ++ run ∨ m = lst "https://" ++ run) ∧ run ≠ [] ∧
      ∀ c ∈ run, isStdUrlChar c = true := by
  unfold tryStdAt at h
  split at h <;> try exact Option.noConfusion h
  next s4 h4 =>
    split at h
    case _ s5 h5 =>
      split at h
      next run after ht =>
        simp only [Option.some.injEq, Prod.mk.injEq] at h
        obtain ⟨hne, hall⟩ := stdTail_shape ht
        exact ⟨run, Or.inr h.1.symm, hne, hall⟩
      next ht =>
        split at h <;> try exact Option.noConfusion h
        next run after ht4 =>
          simp only [Option.some.injEq, Prod.mk.injEq] at h
          obtain ⟨hne, hall⟩ := stdTail_shape ht4
          exact ⟨run, Or.inl h.1.symm, hne, hall⟩
    case _ h5 =>
      split at h <;> try exact Option.noConfusion h
      next run after ht4 =>
        simp only [Option.some.injEq, Prod.mk.injEq] at h
        obtain ⟨hne, hall⟩ := stdTail_shape ht4
        exact ⟨run, Or.inl h.1.symm, hne, hall⟩

theorem scanStd_shape : ∀ fuel (s : Str), ∀ m ∈ scanStd fuel s,
    ∃ run, (m = lst "http://" ++ run ∨ m = lst "https://" ++ run) ∧ run ≠ [] ∧
      ∀ c ∈ run, isStdUrlChar c = true := by
  intro fuel
  induction fuel with
  | zero => intro s m hm; simp [scanStd] at hm
  | succ f ih =>
    intro s m hm
    cases s with
    | nil => simp [scanStd] at hm
    | cons c rest =>
      rw [scanStd] at hm
      split at hm
      next m2 after ht =>
        rcases List.mem_cons.mp hm with rfl | hm2
        · exact tryStdAt_shape ht
        · exact ih after m hm2
      next ht => exact ih rest m hm

theorem tryStateAt_shape {s m rest : Str} (h : tryStateAt s = some (m, rest)) :
    ∃ a b c d run, m = lst "/?state=" ++ [a, b, c, d] ++ lst "&amp;question=" ++ run ∧
      (a.isAlphanum && b.isAlphanum && c.isAlphanum && d.isAlphanum) = true ∧
      run ≠ [] ∧ ∀ ch ∈ run, ch ≠ '"' := by
  unfold tryStateAt at h
  split at h <;> try exact Option.noConfusion h
  next s1 hc =>
    split at h <;> try exact Option.noConfusion h
    next a b c d s2 =>
      split at h <;> try exact Option.noConfusion h
      next habcd =>
        split at h <;> try exact Option.noConfusion h
        next s3 hq =>
          split at h <;> try exact Option.noConfusion h
          next r0 run2 htw =>
            simp only [Option.some.injEq, Prod.mk.injEq] at h
            refine ⟨a, b, c, d, r0 :: run2, h.1.symm, habcd, by simp, fun ch hch => ?_⟩
            have hmem : ch ∈ s3.takeWhile (fun x => x != '"') := by rw [htw]; exact hch
            have hne := List.mem_takeWhile_imp hmem
            simpa using hne

theorem scanState_shape : ∀ fuel (s : Str), ∀ m ∈ scanState fuel s,
    ∃ a b c d run, m = lst "/?state=" ++ [a, b, c, d] ++ lst "&amp;question=" ++ run ∧
      (a.isAlphanum && b.isAlphanum && c.isAlphanum && d.isAlphanum) = true ∧
      run ≠ [] ∧ ∀ ch ∈ run, ch ≠ '"' := by
  intro fuel
  induction fuel with
  | zero => intro s m hm; simp [scanState] at hm
  | succ f ih =>
    intro s m hm
    cases s with
    | nil => simp [scanState] at hm
    | cons c rest =>
      rw [scanState] at hm
      split at hm
      next m2 after ht =>
        rcases List.mem_cons.mp hm with rfl | hm2
        · exact tryStateAt_shape ht
        · exact ih after m hm2
      next ht => exact ih rest m hm

/-- Claim C1 (corrected): every standard URL reported by `extract_urls`
 is `http` or `https` followed by `://` and the longest nonempty run of
 characters from the class `isStdUrlChar` — ASCII letters, digits, the
 whole ASCII range `$`..`_` (which contains `)` `,` `<` `>` `%` `/`),
 plus `!` `*` `\` — so the match stops at the first character outside
 that class (a straight quote or a space ends it, but `)` does not):
 on `'See http://x.io/a,b) more'` the result keeps the trailing `)`,
 while a straight quote does end the match. -/
theorem extract_urls_std_amended :
    (∀ (s : Str), ∀ u ∈ scanStd (s.length + 1) s,
      ∃ run, (u = lst "http://" ++ run ∨ u = lst "https://" ++ run) ∧ run ≠ [] ∧
        ∀ c ∈ run, isStdUrlChar c = true)
    ∧ extractUrlsS (lst "See http://x.io/a,b) more") = [lst "http://x.io/a,b)"]
    ∧ extractUrlsS (lst "say \"http://x.io\" ok") = [lst "http://x.io"]
    ∧ extractUrlsS (lst "see http://x.io>n rest") = [lst "http://x.io>n"] :=
  ⟨fun s => scanStd_shape (s.length + 1) s, by decide, by decide, by decide⟩

/-- Witness for the universal part of the amended claim C1 at a
 concrete input. -/
theorem extract_urls_std_amended_w :
    ∃ run, (lst "http://x.io" = lst "http://" ++ run ∨
            lst "http://x.io" = lst "https://" ++ run) ∧ run ≠ [] ∧
      ∀ c ∈ run, isStdUrlChar c = true :=
  extract_urls_std_amended.1 (lst "a http://x.io b") (lst "http://x.io") (by decide)

/-- Claim C1 counterexample: on `'See http://x.io/a,b) more'` the
 extracted list is `['http://x.io/a,b)']`, not `['http://x.io/a,b']` —
 the trailing `)` is inside the character class (it lies in the ASCII
 range `$`..`_` of `[$-_@.&+]`), so the claimed list is wrong. -/
theorem extract_urls_paren_cex :
    extractUrlsS (lst "See http://x.io/a,b) more") = [lst "http://x.io/a,b)"] ∧
    [lst "http://x.io/a,b)"] ≠ [lst "http://x.io/a,b"] :=
  ⟨by decide, by decide⟩

/-- Claim C6 (confirmed): the internal pseudo-links recognized by
 `extract_urls` have the exact shape `/?state=XXXX&amp;question=<rest>`
 with `XXXX` four alphanumerics and `<rest>` a nonempty run of
 non-quote characters, the HTML-escaped `&amp;` included literally; on
 `'/?state=AB12&amp;question=foo"'` the result is
 `['/?state=AB12&amp;question=foo']` and with a raw `&` it is `[]`. -/
theorem extract_urls_state_spec :
    (∀ (s : Str), ∀ u ∈ scanState (s.length + 1) s,
      ∃ a b c d run, u = lst "/?state=" ++ [a, b, c, d] ++ lst "&amp;question=" ++ run ∧
        (a.isAlphanum && b.isAlphanum && c.isAlphanum && d.isAlphanum) = true ∧
        run ≠ [] ∧ ∀ ch ∈ run, ch ≠ '"')
    ∧ extractUrlsS (lst "/?state=AB12&amp;question=foo\"") = [lst "/?state=AB12&amp;question=foo"]
    ∧ extractUrlsS (lst "/?state=AB12&question=foo") = [] :=
  ⟨fun s => scanState_shape (s.length + 1) s, by decide, by decide⟩

/-- Witness for the universal part of claim C6 at a concrete input. -/
theorem extract_urls_state_spec_w :
    ∃ a b c d run,
      lst "/?state=AB12&amp;question=foo" =
        lst "/?state=" ++ [a, b, c, d] ++ lst "&amp;question=" ++ run ∧
      (a.isAlphanum && b.isAlphanum && c.isAlphanum && d.isAlphanum) = true ∧
      run ≠ [] ∧ ∀ ch ∈ run, ch ≠ '"' :=
  extract_urls_state_spec.1 (lst "/?state=AB12&amp;question=foo\"")
    (lst "/?state=AB12&amp;question=foo") (by decide)

/-! ## Theorems: entry normalization (claims C2, C3, C7) -/

theorem parse_json_skip {item : RawRec} (h : parseOne item = .error .valueError) :
    ∀ pre post, parse_json_data (pre ++ item :: post) = parse_json_data (pre ++ post) := by
  intro pre
  induction pre with
  | nil =>
    intro post
    simp only [List.nil_append]
    rw [parse_json_data, h]
  | cons p pre ih =>
    intro post
    simp only [List.cons_append]
    rw [parse_json_data, parse_json_data, ih post]

theorem parse_json_propagate {item : RawRec} {e : PyErr} (h : parseOne item = .error e)
    (hne : e ≠ .valueError) : ∀ post, parse_json_data (item :: post) = .error e := by
  intro post
  rw [parse_json_data, h]
  cases e with
  | valueError => exact absurd rfl hne
  | typeError => rfl
  | attributeError => rfl

theorem parse_json_ok_eq : ∀ (recs : List RawRec) (es : List Entry),
    parse_json_data recs = .ok es → es = recs.filterMap keepOf := by
  intro recs
  induction recs with
  | nil =>
    intro es h
    rw [parse_json_data] at h
    cases h
    rfl
  | cons item rest ih =>
    intro es h
    rw [parse_json_data] at h
    split at h <;> try exact Except.noConfusion h
    next hp =>
      have hk : keepOf item = none := by simp [keepOf, hp]
      simp only [List.filterMap_cons, hk]
      exact ih es h
    next entry hp =>
      split at h <;> try exact Except.noConfusion h
      next excl hs =>
        split at h <;> try exact Except.noConfusion h
        next es2 hr =>
          cases h
          have h3 := ih es2 hr
          cases excl with
          | true =>
            have hk : keepOf item = none := by simp [keepOf, hp, hs]
            simp [List.filterMap_cons, hk, h3]
          | false =>
            have hk : keepOf item = some entry := by simp [keepOf, hp, hs]
            simp [List.filterMap_cons, hk, h3]

theorem keepOf_some_status {r : RawRec} {e : Entry} (h : keepOf r = some e) :
    statusCheck e.status = .ok false := by
  unfold keepOf at h
  split at h <;> try exact Option.noConfusion h
  next e2 hp =>
    split at h <;> try exact Option.noConfusion h
    next hs =>
      cases h
      exact hs

theorem statusCheck_false_ne {v : JVal} (h : statusCheck v = .ok false) :
    v ≠ JVal.str (lst "Marked for deletion") ∧ v ≠ JVal.str (lst "Subsection") ∧
    v ≠ JVal.str (lst "Duplicate") := by
  cases v with
  | str s =>
    have h2 : inExcluded s = false := by simpa [statusCheck] using h
    refine ⟨fun hv => ?_, fun hv => ?_, fun hv => ?_⟩ <;>
      (injection hv with hs; subst hs; exact absurd h2 (by decide))
  | int n => exact ⟨fun hh => JVal.noConfusion hh, fun hh => JVal.noConfusion hh,
      fun hh => JVal.noConfusion hh⟩
  | list xs => exact ⟨fun hh => JVal.noConfusion hh, fun hh => JVal.noConfusion hh,
      fun hh => JVal.noConfusion hh⟩
  | null => exact ⟨fun hh => JVal.noConfusion hh, fun hh => JVal.noConfusion hh,
      fun hh => JVal.noConfusion hh⟩

theorem parse_datetime_fail {s : Str} (hs : s ≠ []) (hf : fromisoformat (rstripZ s) = none) :
    parse_datetime (JVal.str s) = .error .valueError := by
  have ht : pyTruthy (JVal.str s) = true := by
    cases s with
    | nil => exact absurd rfl hs
    | cons c cs => rfl
  simp [parse_datetime, ht, hf]

theorem parseOne_updatedAt_fail {s : Str} (hs : s ≠ [])
    (hf : fromisoformat (rstripZ s) = none) :
    parseOne [(lst "updatedAt", JVal.str s)] = .error .valueError := by
  have hd := parse_datetime_fail hs hf
  have h1 : getJ [(lst "updatedAt", JVal.str s)] (lst "text") (JVal.str []) =
      JVal.str [] := rfl
  have h2 : getJ [(lst "updatedAt", JVal.str s)] (lst "updatedAt") (JVal.str []) =
      JVal.str s := rfl
  unfold parseOne
  simp only [h1, h2, stripTagsJ, hd]

/-- Claim C2 (amended): `parse_json_data` recovers only from
 `ValueError` — a record whose parse raises `ValueError` (e.g. an
 unparseable timestamp string) is skipped with a printed diagnostic and
 every remaining record is still processed; an exception of any other
 class (e.g. `AttributeError` from a truthy non-string `updatedAt`)
 propagates and aborts the whole batch. -/
theorem parse_json_data_valueError_recovery :
    (∀ (item : RawRec), parseOne item = .error .valueError →
      ∀ (pre post : List RawRec),
        parse_json_data (pre ++ item :: post) = parse_json_data (pre ++ post)) ∧
    (∀ (item : RawRec) (e : PyErr), parseOne item = .error e → e ≠ .valueError →
      ∀ post, parse_json_data (item :: post) = .error e) :=
  ⟨fun item h pre post => parse_json_skip h pre post,
   fun item e h hne post => parse_json_propagate h hne post⟩

/-- Witness for the amended claim C2 at concrete inputs: a bad
 timestamp string is skipped, a non-string timestamp aborts. -/
theorem parse_json_data_valueError_recovery_w :
    parse_json_data [[(lst "updatedAt", JVal.str (lst "nope"))], []] =
      parse_json_data [[]] ∧
    parse_json_data [[(lst "updatedAt", JVal.int 5)]] = .error .attributeError :=
  ⟨parse_json_data_valueError_recovery.1 [(lst "updatedAt", JVal.str (lst "nope"))]
      (by rfl) [] [[]],
   parse_json_data_valueError_recovery.2 [(lst "updatedAt", JVal.int 5)]
      .attributeError (by rfl) (by decide) []⟩

/-- Claim C2 counterexample: a record whose `updatedAt` is the integer
 `5` raises `AttributeError` at `.rstrip('Z')`; `except ValueError`
 does not catch it, so the whole batch aborts and the good records
 around it produce no output at all, contradicting "never aborts the
 whole batch because of one bad record ... for any cause". -/
theorem parse_json_data_abort_cex :
    parse_json_data [[], [(lst "updatedAt", JVal.int 5)], []] =
      .error .attributeError := by rfl

/-- Claim C3 (amended): `parse_datetime` maps empty (or absent, via the
 `''` default) input to the sentinel `datetime.min`; any other string
 is parsed as ISO-8601 after stripping ALL trailing `Z` characters
 (Python `rstrip('Z')`), not exactly one; a string that still fails to
 parse raises `ValueError`, which skips just that record with a
 diagnostic while normalization continues with the remaining records. -/
theorem parse_datetime_amended :
    parse_datetime (JVal.str []) = .ok dtMin ∧
    parse_datetime (JVal.str (lst "2024-01-02T03:04:05ZZ")) =
      .ok ⟨2024, 1, 2, 3, 4, 5, 0, none⟩ ∧
    (∀ (s : Str), s ≠ [] → fromisoformat (rstripZ s) = none →
      ∀ (pre post : List RawRec),
        parse_json_data (pre ++ [(lst "updatedAt", JVal.str s)] :: post) =
          parse_json_data (pre ++ post)) :=
  ⟨by rfl, by rfl,
   fun s hs hf pre post => parse_json_skip (parseOne_updatedAt_fail hs hf) pre post⟩

/-- Witness for claim C3 at a concrete unparseable timestamp. -/
theorem parse_datetime_amended_w :
    parse_json_data [[], [(lst "updatedAt", JVal.str (lst "bogus"))]] =
      parse_json_data [[]] :=
  parse_datetime_amended.2.2 (lst "bogus") (by decide) (by rfl) [[]] []

/-- Claim C3 counterexample: on `'2024-01-02T03:04:05ZZ'` the code's
 `rstrip('Z')` removes BOTH trailing `Z`s and parsing succeeds, whereas
 stripping exactly one `Z` — the claimed behavior — leaves
 `'2024-01-02T03:04:05Z'`, which `fromisoformat` rejects, so the claim
 would predict a per-record skip where the code keeps the record. -/
theorem parse_datetime_rstrip_cex :
    parse_datetime (JVal.str (lst "2024-01-02T03:04:05ZZ")) =
      .ok ⟨2024, 1, 2, 3, 4, 5, 0, none⟩ ∧
    rstripOneZ (lst "2024-01-02T03:04:05ZZ") = lst "2024-01-02T03:04:05Z" ∧
    fromisoformat (rstripOneZ (lst "2024-01-02T03:04:05ZZ")) = none :=
  ⟨by rfl, by rfl, by rfl⟩

/-- Claim C7 (confirmed): every entry returned by `parse_json_data` has
 a status different from each member of the exclusion set
 `{"Marked for deletion", "Subsection", "Duplicate"}` — an excluded
 record never appears regardless of its other fields — and the kept
 entries are exactly the per-record keeps in input order (a stable
 filter, `List.filterMap`, with no reordering). -/
theorem parse_json_data_status_filter :
    ∀ (recs : List RawRec) (es : List Entry), parse_json_data recs = .ok es →
      (∀ e ∈ es, e.status ≠ JVal.str (lst "Marked for deletion") ∧
        e.status ≠ JVal.str (lst "Subsection") ∧
        e.status ≠ JVal.str (lst "Duplicate")) ∧
      es = recs.filterMap keepOf := by
  intro recs es h
  have heq := parse_json_ok_eq recs es h
  refine ⟨fun e he => ?_, heq⟩
  rw [heq] at he
  obtain ⟨r, hr, hk⟩ := List.mem_filterMap.mp he
  exact statusCheck_false_ne (keepOf_some_status hk)

/-- Witness for claim C7: a `Duplicate` record is dropped, the default
 record is kept. -/
theorem parse_json_data_status_filter_w :
    (∀ e ∈ [entryDefault], e.status ≠ JVal.str (lst "Marked for deletion") ∧
      e.status ≠ JVal.str (lst "Subsection") ∧
      e.status ≠ JVal.str (lst "Duplicate")) ∧
    [entryDefault] =
      ([[(lst "status", JVal.str (lst "Duplicate"))], []] : List RawRec).filterMap keepOf :=
  parse_json_data_status_filter [[(lst "status", JVal.str (lst "Duplicate"))], []]
    [entryDefault] (by rfl)

/-! ## Theorems: search engine (claims C4, C5, C8, C10) -/

theorem search_one_ok {term : Str} {cs ww : Bool} {e : Entry} {r : Option MatchResult}
    (h : search_one term cs ww e = .ok r) : r = resOf term cs ww e := by
  unfold search_one at h
  split at h <;> try exact Except.noConfusion h
  next t ht =>
    cases h
    simp [resOf, ht]

theorem search_entries_ok_eq (term : Str) (cs ww : Bool) :
    ∀ (es : List Entry) (rs : List MatchResult),
      search_entries es term cs ww = .ok rs → rs = es.filterMap (resOf term cs ww) := by
  intro es
  induction es with
  | nil => intro rs h; rw [search_entries] at h; cases h; rfl
  | cons e rest ih =>
    intro rs h
    rw [search_entries] at h
    split at h <;> try exact Except.noConfusion h
    next r hse =>
      split at h <;> try exact Except.noConfusion h
      next rs2 hrec =>
        cases h
        have hr := search_one_ok hse
        subst hr
        cases hro : resOf term cs ww e with
        | none => simp [List.filterMap_cons, hro, Option.toList, ih rs2 hrec]
        | some r2 => simp [List.filterMap_cons, hro, Option.toList, ih rs2 hrec]

theorem search_entries_eq (term : Str) (cs ww : Bool) :
    ∀ (es : List Entry), (∀ e ∈ es, ∃ t, e.title = JVal.str t) →
      search_entries es term cs ww = .ok (es.filterMap (resOf term cs ww)) := by
  intro es
  induction es with
  | nil => intro _; rfl
  | cons e rest ih =>
    intro hall
    obtain ⟨t, ht⟩ := hall e (by simp)
    have hrest := ih (fun x hx => hall x (List.mem_cons_of_mem e hx))
    have hso : search_one term cs ww e = .ok (oneRes term cs ww t e) := by
      unfold search_one; rw [ht]
    have hre : resOf term cs ww e = oneRes term cs ww t e := by simp [resOf, ht]
    rw [search_entries, hso, hrest]
    cases hro : oneRes term cs ww t e with
    | none => simp [List.filterMap_cons, hre, hro, Option.toList]
    | some r => simp [List.filterMap_cons, hre, hro, Option.toList]

theorem oneRes_isSome (term : Str) (cs ww : Bool) (t : Str) (e : Entry) :
    (oneRes term cs ww t e).isSome =
      ((reSearch (!cs) ww term t).isSome || (reSearch (!cs) ww term e.text).isSome ||
       (e.URLs.map (fun u => reSearch (!cs) ww term u)).any (fun o => o.isSome)) := by
  simp only [oneRes]
  cases hc : ((reSearch (!cs) ww term t).isSome || (reSearch (!cs) ww term e.text).isSome ||
      (e.URLs.map (fun u => reSearch (!cs) ww term u)).any (fun o => o.isSome)) with
  | true => simp [hc]
  | false => simp [hc]

theorem filterMap_length_eq {α β : Type} (f : α → Option β) : ∀ l : List α,
    (l.filterMap f).length = (l.filter (fun a => (f a).isSome)).length := by
  intro l
  induction l with
  | nil => rfl
  | cons a l ih =>
    cases hf : f a with
    | none => simp [List.filterMap_cons, List.filter_cons, hf, ih]
    | some b => simp [List.filterMap_cons, List.filter_cons, hf, ih]

/-- Claim C4 (amended): an entry contributes a `MatchResult` iff the
 pattern matches the title, the WHOLE body text (one `re.search` over
 the entire text, so a term containing a newline can match across line
 boundaries without any single line matching), or at least one URL;
 the number of results equals the number of entries passing that gate. -/
theorem search_entries_hit_iff :
    (∀ (term : Str) (cs ww : Bool) (e : Entry) (t : Str), e.title = JVal.str t →
      ((resOf term cs ww e).isSome = true ↔
        (reSearch (!cs) ww term t).isSome = true ∨
        (reSearch (!cs) ww term e.text).isSome = true ∨
        ∃ u ∈ e.URLs, (reSearch (!cs) ww term u).isSome = true)) ∧
    (∀ (term : Str) (cs ww : Bool) (es : List Entry) (rs : List MatchResult),
      search_entries es term cs ww = .ok rs →
      rs.length = (es.filter (fun e => (resOf term cs ww e).isSome)).length) := by
  constructor
  · intro term cs ww e t ht
    simp only [resOf, ht]
    rw [oneRes_isSome]
    simp only [Bool.or_eq_true, List.any_eq_true, List.mem_map]
    constructor
    · rintro ((h | h) | ⟨x, ⟨u, hu, rfl⟩, hx⟩)
      · exact Or.inl h
      · exact Or.inr (Or.inl h)
      · exact Or.inr (Or.inr ⟨u, hu, hx⟩)
    · rintro (h | h | ⟨u, hu, hx⟩)
      · exact Or.inl (Or.inl h)
      · exact Or.inl (Or.inr h)
      · exact Or.inr ⟨_, ⟨u, hu, rfl⟩, hx⟩
  · intro term cs ww es rs h
    rw [search_entries_ok_eq term cs ww es rs h]
    exact filterMap_length_eq _ es

/-- Witness for the amended claim C4 at a concrete entry. -/
theorem search_entries_hit_iff_w :
    (resOf (lst "a") false false (mkE (JVal.str (lst "ab")) [] [] JVal.null)).isSome = true ↔
      (reSearch true false (lst "a") (lst "ab")).isSome = true ∨
      (reSearch true false (lst "a")
        (mkE (JVal.str (lst "ab")) [] [] JVal.null).text).isSome = true ∨
      ∃ u ∈ (mkE (JVal.str (lst "ab")) [] [] JVal.null).URLs,
        (reSearch true false (lst "a") u).isSome = true :=
  search_entries_hit_iff.1 (lst "a") false false
    (mkE (JVal.str (lst "ab")) [] [] JVal.null) (lst "ab") rfl

/-- Claim C4 counterexample: searching for the term `'a\nb'` in an
 entry whose body is `'a\nb'` (title `'t'`, no URLs) produces a
 `MatchResult` — with an empty match list — although the title does not
 match, no individual body line matches, and there are no URLs, so the
 claimed "iff" over title/any-line/any-URL is false. -/
theorem search_text_gate_cex :
    search_entries [mkE (JVal.str (lst "t")) (lst "a\nb") [] (JVal.str [])]
        (lst "a\nb") false false =
      .ok [⟨lst "t", JVal.str [], []⟩] ∧
    reSearch true false (lst "a\nb") (lst "t") = none ∧
    ((splitNl (lst "a\nb")).all
      (fun line => (reSearch true false (lst "a\nb") line).isNone)) = true :=
  ⟨by rfl, by rfl, by rfl⟩

theorem findGo_pos_le (ic ww : Bool) (t s : Str) :
    ∀ fuel i, ∀ p ∈ findGo ic ww t s fuel i, i ≤ p.1 := by
  intro fuel
  induction fuel with
  | zero => intro i p hp; simp [findGo] at hp
  | succ f ih =>
    intro i p hp
    rw [findGo] at hp
    by_cases h1 : s.length < i
    · rw [if_pos h1] at hp; simp at hp
    · rw [if_neg h1] at hp
      by_cases h2 : matchesAt ic ww t s i = true
      · rw [if_pos h2] at hp
        rcases List.mem_cons.mp hp with rfl | hp2
        · exact le_refl _
        · have := ih (i + max t.length 1) p hp2
          omega
      · rw [if_neg h2] at hp
        have := ih (i + 1) p hp
        omega

theorem findGo_pairwise (ic ww : Bool) (t s : Str) :
    ∀ fuel i, List.Pairwise (fun p q => p.1 < q.1) (findGo ic ww t s fuel i) := by
  intro fuel
  induction fuel with
  | zero => intro i; simp [findGo]
  | succ f ih =>
    intro i
    rw [findGo]
    by_cases h1 : s.length < i
    · rw [if_pos h1]; exact List.Pairwise.nil
    · rw [if_neg h1]
      by_cases h2 : matchesAt ic ww t s i = true
      · rw [if_pos h2]
        refine List.Pairwise.cons (fun q hq => ?_) (ih _)
        have := findGo_pos_le ic ww t s f (i + max t.length 1) q hq
        have hmax : 1 ≤ max t.length 1 := le_max_right _ _
        omega
      · rw [if_neg h2]; exact ih _

/-- Claim C5 (confirmed): the output follows the input entries order —
 the result list is exactly the order-preserving `filterMap` of the
 per-entry results — and within one result the match records are the
 title match (if any) first, then the per-line text records line by
 line with strictly increasing positions inside each line (left to
 right), then the URL records in `URLs` order. -/
theorem search_entries_order :
    (∀ (term : Str) (cs ww : Bool) (es : List Entry) (rs : List MatchResult),
      search_entries es term cs ww = .ok rs → rs = es.filterMap (resOf term cs ww)) ∧
    (∀ (term : Str) (cs ww : Bool) (t : Str) (e : Entry) (r : MatchResult),
      e.title = JVal.str t → oneRes term cs ww t e = some r →
      ∃ tl, (tl = [] ∨ ∃ i g, reSearch (!cs) ww term t = some (i, g) ∧
              tl = [MatchRec.title i g]) ∧
        r.matches' = tl ++ (splitNl e.text).flatMap (fun line => lineRecs (!cs) ww term line)
          ++ (e.URLs.zip (e.URLs.map (fun u => reSearch (!cs) ww term u))).filterMap
               (fun um => match um.2 with
                          | some ig => some (MatchRec.url ig.2 um.1)
                          | none => none)) ∧
    (∀ (ic ww : Bool) (term line : Str),
      List.Pairwise (fun p q => p.1 < q.1) (findIterL ic ww term line)) := by
  refine ⟨fun term cs ww es rs h => search_entries_ok_eq term cs ww es rs h,
          fun term cs ww t e r ht hr => ?_,
          fun ic ww term line => findGo_pairwise ic ww term line (line.length + 1) 0⟩
  simp only [oneRes] at hr
  split at hr <;> try exact Option.noConfusion hr
  next hc =>
    cases hr
    cases htm : reSearch (!cs) ww term t with
    | none => exact ⟨[], Or.inl rfl, by simp [htm]⟩
    | some ig => exact ⟨[MatchRec.title ig.1 ig.2],
        Or.inr ⟨ig.1, ig.2, by simp [htm], rfl⟩, by simp [htm]⟩

/-- Witness for claim C5 at a concrete entry list. -/
theorem search_entries_order_w :
    ([⟨lst "ab", JVal.str [], [MatchRec.title 0 (lst "ab"),
        MatchRec.text (lst "ab") (lst "ab")]⟩] : List MatchResult) =
      [mkE (JVal.str (lst "ab")) (lst "ab") [] (JVal.str [])].filterMap
        (resOf (lst "ab") false false) :=
  search_entries_order.1 (lst "ab") false false
    [mkE (JVal.str (lst "ab")) (lst "ab") [] (JVal.str [])] _ (by rfl)

theorem litAt_ci_iff : ∀ (t s : Str), litAt true t s = true ↔
    (t.length ≤ s.length ∧ (s.take t.length).map Char.toLower = t.map Char.toLower) := by
  intro t
  induction t with
  | nil => intro s; simp [litAt]
  | cons a t ih =>
    intro s
    cases s with
    | nil => simp [litAt]
    | cons b s2 =>
      simp only [litAt, Bool.and_eq_true, eqC, if_true, decide_eq_true_eq,
        List.length_cons, Nat.succ_le_succ_iff, List.take_succ_cons, List.map_cons,
        List.cons.injEq]
      rw [ih s2]
      tauto

/-- Claim C8 (confirmed): the term is matched as the literal string
 `re.escape` makes of it; under the default IGNORECASE the pattern
 matches exactly when the case-folded characters agree — so `"Safety"`
 matches the title `"AI safety basics"` — and with `whole_word` the
 pattern is wrapped in `\b` anchors on both sides, so a match needs
 word boundaries at both ends and the term `"AI"` does not match the
 text `"CHAIN"`. -/
theorem search_pattern_semantics :
    (∀ (t s : Str), litAt true t s = true ↔
      (t.length ≤ s.length ∧ (s.take t.length).map Char.toLower = t.map Char.toLower)) ∧
    (∀ (ic : Bool) (t s : Str) (i : Nat), matchesAt ic true t s i = true →
      boundB s i = true ∧ boundB s (i + t.length) = true ∧
      litAt ic t (s.drop i) = true) ∧
    search_entries [mkE (JVal.str (lst "AI safety basics")) [] [] (JVal.str (lst "live"))]
        (lst "Safety") false false =
      .ok [⟨lst "AI safety basics", JVal.str (lst "live"),
            [MatchRec.title 3 (lst "safety")]⟩] ∧
    search_entries [mkE (JVal.str []) (lst "CHAIN") [] (JVal.str [])]
        (lst "AI") false true = .ok [] := by
  refine ⟨litAt_ci_iff, ?_, by rfl, by rfl⟩
  intro ic t s i h
  unfold matchesAt at h
  simp only [Bool.not_true, Bool.false_or, Bool.and_eq_true] at h
  exact ⟨h.2.1, h.2.2, h.1⟩

/-- Witness for claim C8 at concrete strings. -/
theorem search_pattern_semantics_w :
    (litAt true (lst "safety") (lst "Safety basics") = true ↔
      ((lst "safety").length ≤ (lst "Safety basics").length ∧
        ((lst "Safety basics").take (lst "safety").length).map Char.toLower =
          (lst "safety").map Char.toLower)) ∧
    (boundB (lst "x AI y") 2 = true ∧
      boundB (lst "x AI y") (2 + (lst "AI").length) = true ∧
      litAt true (lst "AI") ((lst "x AI y").drop 2) = true) :=
  ⟨search_pattern_semantics.1 (lst "safety") (lst "Safety basics"),
   search_pattern_semantics.2.1 true (lst "AI") (lst "x AI y") 2 (by decide)⟩

/-! ## Theorems: empty search term (claim C10) -/

theorem reSearch_empty (ic : Bool) (s : Str) : reSearch ic false [] s = some (0, []) := by
  unfold reSearch
  rw [searchGo]
  simp [matchesAt, litAt]

theorem findGo_empty (ic : Bool) (s : Str) :
    ∀ k i, k = s.length + 1 - i →
      findGo ic false [] s k i = (List.range' i k).map (fun j => (j, ([] : Str))) := by
  intro k
  induction k with
  | zero => intro i hk; simp [findGo, List.range']
  | succ k ih =>
    intro i hk
    have hi : ¬ s.length < i := by omega
    have hm : matchesAt ic false [] s i = true := by simp [matchesAt, litAt]
    rw [findGo, if_neg hi, if_pos hm]
    have hk2 : k = s.length + 1 - (i + 1) := by omega
    have hrec := ih (i + 1) hk2
    simp only [List.length_nil, List.take_zero, Nat.zero_max] at hrec ⊢
    rw [hrec]
    simp [List.range']

theorem findIterL_empty (ic : Bool) (s : Str) :
    findIterL ic false [] s =
      (List.range' 0 (s.length + 1)).map (fun j => (j, ([] : Str))) := by
  unfold findIterL
  exact findGo_empty ic s (s.length + 1) 0 (by omega)

theorem lineRecs_empty (ic : Bool) (line : Str) :
    lineRecs ic false [] line =
      List.replicate (line.length + 1) (MatchRec.text [] (pyStrip line)) := by
  unfold lineRecs
  rw [findIterL_empty, List.map_map]
  refine List.eq_replicate_iff.mpr ⟨by simp, ?_⟩
  intro x hx
  obtain ⟨j, hj, rfl⟩ := List.mem_map.mp hx
  rfl

theorem urlRecs_empty (ic : Bool) : ∀ urls : List Str,
    (urls.zip (urls.map (fun u => reSearch ic false [] u))).filterMap
      (fun um => match um.2 with
                 | some ig => some (MatchRec.url ig.2 um.1)
                 | none => none) =
    urls.map (fun u => MatchRec.url [] u) := by
  intro urls
  induction urls with
  | nil => rfl
  | cons u urls ih =>
    simp only [List.map_cons, List.zip_cons_cons, List.filterMap_cons]
    rw [reSearch_empty]
    exact congrArg (fun l => MatchRec.url [] u :: l) ih

theorem oneRes_empty (cs : Bool) (t : Str) (e : Entry) :
    oneRes [] cs false t e =
      some ⟨t, e.status,
        MatchRec.title 0 [] ::
          ((splitNl e.text).flatMap (fun line =>
            List.replicate (line.length + 1) (MatchRec.text [] (pyStrip line)))
          ++ e.URLs.map (fun u => MatchRec.url [] u))⟩ := by
  simp only [oneRes]
  rw [reSearch_empty (!cs) t, reSearch_empty (!cs) e.text, urlRecs_empty (!cs) e.URLs]
  simp [lineRecs_empty]

theorem empty_term_forall (cs : Bool) : ∀ (es : List Entry),
    (∀ e ∈ es, ∃ t, e.title = JVal.str t) →
    List.Forall₂ (fun (e : Entry) (r : MatchResult) =>
      JVal.str r.title = e.title ∧ r.status = e.status ∧
      r.matches' = MatchRec.title 0 [] ::
        ((splitNl e.text).flatMap (fun line =>
          List.replicate (line.length + 1) (MatchRec.text [] (pyStrip line)))
        ++ e.URLs.map (fun u => MatchRec.url [] u)))
      es (es.filterMap (resOf [] cs false)) := by
  intro es
  induction es with
  | nil => intro _; exact List.Forall₂.nil
  | cons e rest ih =>
    intro hall
    obtain ⟨t, ht⟩ := hall e (by simp)
    have hres : resOf [] cs false e =
        some ⟨t, e.status, MatchRec.title 0 [] ::
          ((splitNl e.text).flatMap (fun line =>
            List.replicate (line.length + 1) (MatchRec.text [] (pyStrip line)))
          ++ e.URLs.map (fun u => MatchRec.url [] u))⟩ := by
      simp only [resOf, ht]
      exact oneRes_empty cs t e
    rw [List.filterMap_cons, hres]
    exact List.Forall₂.cons ⟨by rw [ht], rfl, rfl⟩
      (ih (fun x hx => hall x (List.mem_cons_of_mem e hx)))

/-- Claim C10 (confirmed): with the empty search term (and the default
 `whole_word=False`), the escaped empty pattern matches at position 0
 of every title — including empty titles — so `search_entries` returns
 one `MatchResult` per entry, index for index in input order; each
 result starts with the `('title', 0, '')` record and carries, for
 every body line, one `('text', '', stripped line)` record per
 zero-width match position of that line (`line.length + 1` of them),
 followed by one URL record per URL. -/
theorem search_empty_term :
    ∀ (es : List Entry) (cs : Bool), (∀ e ∈ es, ∃ t, e.title = JVal.str t) →
      ∃ rs, search_entries es [] cs false = .ok rs ∧
        List.Forall₂ (fun (e : Entry) (r : MatchResult) =>
          JVal.str r.title = e.title ∧ r.status = e.status ∧
          r.matches' = MatchRec.title 0 [] ::
            ((splitNl e.text).flatMap (fun line =>
              List.replicate (line.length + 1) (MatchRec.text [] (pyStrip line)))
            ++ e.URLs.map (fun u => MatchRec.url [] u))) es rs :=
  fun es cs hall =>
    ⟨es.filterMap (resOf [] cs false), search_entries_eq [] cs false es hall,
     empty_term_forall cs es hall⟩

/-- Witness for claim C10 on a one-entry list. -/
theorem search_empty_term_w :
    ∃ rs, search_entries [entryDefault] [] false false = .ok rs ∧
      List.Forall₂ (fun (e : Entry) (r : MatchResult) =>
        JVal.str r.title = e.title ∧ r.status = e.status ∧
        r.matches' = MatchRec.title 0 [] ::
          ((splitNl e.text).flatMap (fun line =>
            List.replicate (line.length + 1) (MatchRec.text [] (pyStrip line)))
          ++ e.URLs.map (fun u => MatchRec.url [] u))) [entryDefault] rs :=
  search_empty_term [entryDefault] false
    (by intro e he; rw [List.mem_singleton] at he; subst he; exact ⟨[], rfl⟩)

/-! ## Theorems: HTML stripper (claim C9) -/

theorem stripGoF_plain : ∀ (s : Str) (fuel : Nat), s.length ≤ fuel →
    (∀ c ∈ s, c ≠ '<' ∧ c ≠ '&') → stripGoF fuel s = s := by
  intro s
  induction s with
  | nil => intro fuel _ _; cases fuel <;> rfl
  | cons c rest ih =>
    intro fuel hlen hall
    cases fuel with
    | zero => simp at hlen
    | succ f =>
      have hc := hall c (by simp)
      have hrest : stripGoF f rest = rest :=
        ih f (by simpa using hlen) (fun x hx => hall x (List.mem_cons_of_mem c hx))
      rw [stripGoF.eq_def]
      simp [hc.1, hc.2, hrest]

/-- Claim C9 (amended): `strip_tags(None)` is the empty string; the
 function is total over the model (malformed markup never raises); text
 containing no `<` and no `&` passes through unchanged, preserving
 order and whitespace; markup tags are removed and character references
 decoded (`'<p>See http://x.io/a,b) more</p>'` strips to its text, and
 `'&lt;'` decodes to `'<'`) — but because entities decode to literal
 angle brackets, the output is NOT always free of `<`/`>`-delimited
 tag-shaped text. -/
theorem strip_tags_amended :
    stripTags none = [] ∧
    (∀ s : Str, (∀ c ∈ s, c ≠ '<' ∧ c ≠ '&') → stripTags (some s) = s) ∧
    stripTags (some (lst "<p>See http://x.io/a,b) more</p>")) =
      lst "See http://x.io/a,b) more" ∧
    stripTags (some (lst "&lt;")) = lst "<" := by
  refine ⟨rfl, fun s h => ?_, by rfl, by rfl⟩
  exact stripGoF_plain s (s.length + 1) (by omega) h

/-- Witness for claim C9 on markup-free text. -/
theorem strip_tags_amended_w :
    stripTags (some (lst "plain text 123")) = lst "plain text 123" :=
  strip_tags_amended.2.1 (lst "plain text 123") (by decide)

/-- Claim C9 counterexample: `strip_tags('&lt;b&gt;')` returns the
 string `<b>`, which contains a `<`/`>`-delimited markup-shaped tag —
 entity decoding reintroduces angle brackets, so "the result contains
 no tags" is false as a universal statement. -/
theorem strip_tags_entity_cex :
    stripTags (some (lst "&lt;b&gt;")) = lst "<b>" ∧
    tagIn (stripTags (some (lst "&lt;b&gt;"))) = true :=
  ⟨by rfl, by rfl⟩
